import Mathlib

/-!
Shallow embedding of the beanstack store (riky126/beanstack) in Lean 4.

The embedding follows `src/beanstack/beanstack_store.py`,
`src/beanstack/utils.py`, `src/beanstack/types.py` and
`src/beanstack/middleware.py`.  Python values that can appear in a state
tree are modelled by the inductive type `Val` (mappings become
association lists, preserving insertion order, exactly as Python dicts
preserve it).  `deepcopy` and the `ImmutableDict` wrap/unwrap round trip
(`ImmutableDict(d).to_dict()`) are the identity on this structural
representation, so they are not represented explicitly.  Wall-clock
timestamps (`datetime.now().isoformat()`) are modelled as an explicit
`Nat` argument threaded into every operation that records one.
-/

namespace Beanstack

/-- Structural model of a Python value appearing in a state tree:
mappings, lists, integers, strings, booleans and `None`. -/
inductive Val where
  | vmap : List (String × Val) → Val
  | vlist : List Val → Val
  | vint : Int → Val
  | vstr : String → Val
  | vbool : Bool → Val
  | vnone : Val

/-- Structural equality test on `Val`, modelling Python `==` on the
corresponding values. -/
def Val.beq : Val → Val → Bool
  | .vmap a, .vmap b => beqPairs a b
  | .vlist a, .vlist b => beqVals a b
  | .vint a, .vint b => a == b
  | .vstr a, .vstr b => a == b
  | .vbool a, .vbool b => a == b
  | .vnone, .vnone => true
  | _, _ => false
where
  beqPairs : List (String × Val) → List (String × Val) → Bool
    | [], [] => true
    | (k1, v1) :: r1, (k2, v2) :: r2 => k1 == k2 && Val.beq v1 v2 && beqPairs r1 r2
    | _, _ => false
  beqVals : List Val → List Val → Bool
    | [], [] => true
    | v1 :: r1, v2 :: r2 => Val.beq v1 v2 && beqVals r1 r2
    | _, _ => false

mutual

theorem Val.beq_iff : ∀ a b : Val, (Val.beq a b = true) ↔ a = b
  | .vmap a, .vmap b => by simp [Val.beq, beqPairs_iff a b]
  | .vlist a, .vlist b => by simp [Val.beq, beqVals_iff a b]
  | .vint a, .vint b => by simp [Val.beq]
  | .vstr a, .vstr b => by simp [Val.beq]
  | .vbool a, .vbool b => by simp [Val.beq]
  | .vnone, .vnone => by simp [Val.beq]
  | .vmap a, .vlist b => by simp [Val.beq]
  | .vmap a, .vint b => by simp [Val.beq]
  | .vmap a, .vstr b => by simp [Val.beq]
  | .vmap a, .vbool b => by simp [Val.beq]
  | .vmap a, .vnone => by simp [Val.beq]
  | .vlist a, .vmap b => by simp [Val.beq]
  | .vlist a, .vint b => by simp [Val.beq]
  | .vlist a, .vstr b => by simp [Val.beq]
  | .vlist a, .vbool b => by simp [Val.beq]
  | .vlist a, .vnone => by simp [Val.beq]
  | .vint a, .vmap b => by simp [Val.beq]
  | .vint a, .vlist b => by simp [Val.beq]
  | .vint a, .vstr b => by simp [Val.beq]
  | .vint a, .vbool b => by simp [Val.beq]
  | .vint a, .vnone => by simp [Val.beq]
  | .vstr a, .vmap b => by simp [Val.beq]
  | .vstr a, .vlist b => by simp [Val.beq]
  | .vstr a, .vint b => by simp [Val.beq]
  | .vstr a, .vbool b => by simp [Val.beq]
  | .vstr a, .vnone => by simp [Val.beq]
  | .vbool a, .vmap b => by simp [Val.beq]
  | .vbool a, .vlist b => by simp [Val.beq]
  | .vbool a, .vint b => by simp [Val.beq]
  | .vbool a, .vstr b => by simp [Val.beq]
  | .vbool a, .vnone => by simp [Val.beq]
  | .vnone, .vmap b => by simp [Val.beq]
  | .vnone, .vlist b => by simp [Val.beq]
  | .vnone, .vint b => by simp [Val.beq]
  | .vnone, .vstr b => by simp [Val.beq]
  | .vnone, .vbool b => by simp [Val.beq]

theorem beqPairs_iff : ∀ a b : List (String × Val), (Val.beq.beqPairs a b = true) ↔ a = b
  | [], [] => by simp [Val.beq.beqPairs]
  | (k1, v1) :: r1, (k2, v2) :: r2 => by
      simp [Val.beq.beqPairs, Val.beq_iff v1 v2, beqPairs_iff r1 r2, and_assoc]
  | [], (k2, v2) :: r2 => by simp [Val.beq.beqPairs]
  | (k1, v1) :: r1, [] => by simp [Val.beq.beqPairs]

theorem beqVals_iff : ∀ a b : List Val, (Val.beq.beqVals a b = true) ↔ a = b
  | [], [] => by simp [Val.beq.beqVals]
  | v1 :: r1, v2 :: r2 => by simp [Val.beq.beqVals, Val.beq_iff v1 v2, beqVals_iff r1 r2]
  | [], v2 :: r2 => by simp [Val.beq.beqVals]
  | v1 :: r1, [] => by simp [Val.beq.beqVals]

end

instance : DecidableEq Val := fun a b => decidable_of_iff _ (Val.beq_iff a b)

/-- Python truthiness of a modelled value (`bool(v)`): empty mappings,
empty lists, zero, the empty string, `False` and `None` are falsy. -/
def Val.truthy : Val → Bool
  | .vmap kvs => !kvs.isEmpty
  | .vlist vs => !vs.isEmpty
  | .vint n => n != 0
  | .vstr s => !s.isEmpty
  | .vbool b => b
  | .vnone => false

/-- Test whether a value is a mapping, modelling
`isinstance(v, Mapping)`. -/
def Val.isMap : Val → Bool
  | .vmap _ => true
  | _ => false

/-- Lookup of a key in an association list modelling a Python dict
(`d[k]` / `k in d`); keys in a Python dict are unique, so first match
is the match. -/
def mlookup : List (String × Val) → String → Option Val
  | [], _ => none
  | (k2, v) :: rest, k => if k2 == k then some v else mlookup rest k

/-- Assignment `d[k] = v` on the association-list model of a Python
dict: replaces the value in place if the key is present (keeping its
position, as CPython does) and appends otherwise. -/
def mapSet : List (String × Val) → String → Val → List (String × Val)
  | [], k, v => [(k, v)]
  | (k2, v2) :: rest, k, v =>
      if k2 == k then (k2, v) :: rest else (k2, v2) :: mapSet rest k v

/-- Model of Python `d.get(k)` with default `None`, as used by
`get_state(slice_key)`. -/
def Val.get (v : Val) (k : String) : Val :=
  match v with
  | .vmap kvs => (mlookup kvs k).getD .vnone
  | _ => .vnone

/-- Observation helper: key lookup lifted to `Val`, `none` when the key
is absent or the value is not a mapping. -/
def Val.lookupKey : Val → String → Option Val
  | .vmap kvs, k => mlookup kvs k
  | _, _ => none

/-- Merge of a stored state into an initial state, from
`utils.combine_state`, with the stored dict as the first (recursion)
argument.  Iterates the stored dict in order: an absent key is adopted;
a key present in both with both values mappings is merged recursively;
otherwise a differing stored value overwrites the initial one. -/
def combineFrom : Val → Val → Val
  | .vmap s, .vmap i => .vmap (go s i)
  | _, i => i
where
  go : List (String × Val) → List (String × Val) → List (String × Val)
    | [], merged => merged
    | (key, sv) :: rest, merged =>
      let merged2 :=
        match mlookup merged key with
        | none => merged ++ [(key, sv)]
        | some iv =>
          match sv, iv with
          | .vmap _, .vmap _ => mapSet merged key (combineFrom sv iv)
          | _, _ => if Val.beq iv sv then merged else mapSet merged key sv
      go rest merged2

/-- Model of `utils.combine_state(initial_state, stored_state)`,
keeping the source's argument order. -/
def combine_state (initial stored : Val) : Val := combineFrom stored initial

/-- One record of the history ring: the deep-copied state, the action
that produced it and the timestamp, from `TimeTravel.push_state`. -/
structure HistEntry where
  state : Val
  action : Val
  timestamp : Nat
deriving DecidableEq

/-- State of the `TimeTravel` class: a deque with a fixed `maxlen`
(modelled by `maxHistory` plus explicit eviction), and the cursor
`current_index`, which is `-1` exactly while the ring is empty. -/
structure TimeTravel where
  maxHistory : Nat
  history : List HistEntry
  currentIndex : Int
deriving DecidableEq

/-- Ring state produced by `TimeTravel.__init__(max_history)`. -/
def TimeTravel.init (maxHistory : Nat) : TimeTravel :=
  { maxHistory := maxHistory, history := [], currentIndex := -1 }

/-- Model of `TimeTravel.push_state`: if the cursor is not at the tail,
truncate to the prefix up to the cursor (rebuilding the deque with the
same `maxlen`); append the new entry; the deque evicts from the head
once over capacity; finally the cursor moves to the new tail. -/
def TimeTravel.push_state (tt : TimeTravel) (state action : Val) (timestamp : Nat) :
    TimeTravel :=
  let truncated :=
    if tt.currentIndex < (tt.history.length : Int) - 1 then
      tt.history.take (tt.currentIndex + 1).toNat
    else tt.history
  let appended := truncated ++ [⟨state, action, timestamp⟩]
  let bounded :=
    if tt.maxHistory < appended.length then
      appended.drop (appended.length - tt.maxHistory)
    else appended
  { tt with history := bounded, currentIndex := (bounded.length : Int) - 1 }

/-- Model of `TimeTravel.get_state(index)`: a deep copy of the stored
state when `0 <= index < len(history)`, and `None` otherwise (the
explicit bound check means a negative index is never used to index the
deque from the end). -/
def TimeTravel.get_state (tt : TimeTravel) (index : Int) : Option Val :=
  if 0 ≤ index ∧ index < (tt.history.length : Int) then
    (tt.history.get? index.toNat).map (·.state)
  else none

/-- Model of `TimeTravel.get_current_state()`: the entry under the
cursor when the cursor is non-negative, `None` otherwise. -/
def TimeTravel.get_current_state (tt : TimeTravel) : Option Val :=
  if 0 ≤ tt.currentIndex then
    (tt.history.get? tt.currentIndex.toNat).map (·.state)
  else none

/-- Model of a storage backend satisfying the `StorageEngine` protocol:
a key-to-blob map plus a counter of performed `save` calls, used to
observe whether a persistence save was attempted. -/
structure Storage where
  data : List (String × Val)
  saveCount : Nat
deriving DecidableEq

/-- Backend `save(key, data)`: overwrite the blob under `key`. -/
def Storage.save (st : Storage) (key : String) (blob : Val) : Storage :=
  { data := mapSet st.data key blob, saveCount := st.saveCount + 1 }

/-- Backend `load(key)`: the blob under `key`, or absent. -/
def Storage.load (st : Storage) (key : String) : Option Val :=
  mlookup st.data key

/-- State of a `beanstackStore` instance.  The reducer is passed
explicitly to the operations that use it (it is fixed at construction
and never replaced).  `subscribersNotified` counts the calls to
`_notify_subscribers`, observing whether subscribers were notified. -/
structure Store where
  state : Val
  debugMode : Bool
  timeTravel : TimeTravel
  storage : Option Storage
  storageKey : String
  persistKeys : Option (List String)
  subscribersNotified : Nat
deriving DecidableEq

/-- Model of `beanstackStore._persist_state`: nothing without a
backend; with a `persist_keys` allow-list that is truthy (non-`None`
and non-empty), only the listed keys present in the state are saved,
in list order; otherwise the whole state is saved. -/
def Store.persist_state (s : Store) : Store :=
  match s.storage with
  | none => s
  | some st =>
    let toPersist :=
      match s.persistKeys with
      | some keys =>
        if keys.isEmpty then s.state
        else
          match s.state with
          | .vmap kvs => .vmap (keys.filterMap (fun k => (mlookup kvs k).map (fun v => (k, v))))
          | _ => s.state
      | none => s.state
    { s with storage := some (st.save s.storageKey toPersist) }

/-- Model of `beanstackStore._rehydrate_state`: `None` without a
backend or when the loaded blob is falsy; with a truthy `persist_keys`
allow-list, only the listed keys present in the blob are kept, in list
order. -/
def rehydrate_state (storage : Option Storage) (storageKey : String)
    (persistKeys : Option (List String)) : Option Val :=
  match storage with
  | none => none
  | some st =>
    match st.load storageKey with
    | none => none
    | some stored =>
      if stored.truthy = false then none
      else
        match persistKeys with
        | some keys =>
          if keys.isEmpty then some stored
          else
            match stored with
            | .vmap kvs =>
              some (.vmap (keys.filterMap (fun k => (mlookup kvs k).map (fun v => (k, v)))))
            | _ => some stored
        | none => some stored

/-- Model of `beanstackStore.__init__` / `create_store`: rehydrate from
storage, fall back to `initial_state or {}`, merge the rehydrated blob
under the initial state when the blob is truthy, and start in normal
mode with an empty 50-entry history ring. -/
def create_store (initialState : Option Val) (storage : Option Storage)
    (storageKey : String) (persistKeys : Option (List String)) : Store :=
  let rehydrated := rehydrate_state storage storageKey persistKeys
  let baseState :=
    match initialState with
    | some v => if v.truthy then v else Val.vmap []
    | none => Val.vmap []
  let mergeState :=
    match rehydrated with
    | some r => if r.truthy then combine_state baseState r else baseState
    | none => baseState
  { state := mergeState
    debugMode := false
    timeTravel := TimeTravel.init 50
    storage := storage
    storageKey := storageKey
    persistKeys := persistKeys
    subscribersNotified := 0 }

/-- Validity check from `_base_dispatch`: the action must be a dict
containing the key `"type"`. -/
def isValidAction : Val → Bool
  | .vmap kvs => kvs.any (fun p => p.1 == "type")
  | _ => false

/-- Errors raised by store operations. -/
inductive StoreError where
  | malformedAction
  | notDebugMode
deriving DecidableEq

/-- Model of `beanstackStore._base_dispatch` (the target of `dispatch`):
reject a malformed action, leaving the store untouched; otherwise run
the reducer on the current state, replace the state, push the new state
into the history ring when in debug mode, persist, notify subscribers,
and return the action. -/
def Store.base_dispatch (reducer : Val → Val → Val) (s : Store) (action : Val)
    (timestamp : Nat) : Store × Except StoreError Val :=
  if isValidAction action = false then
    (s, .error .malformedAction)
  else
    let newState := reducer s.state action
    let s1 := { s with state := newState }
    let s2 :=
      if s1.debugMode then
        { s1 with timeTravel := s1.timeTravel.push_state newState action timestamp }
      else s1
    let s3 := s2.persist_state
    let s4 := { s3 with subscribersNotified := s3.subscribersNotified + 1 }
    (s4, .ok action)

/-- Model of `beanstackStore.dispatch`, which forwards to
`_base_dispatch`. -/
def Store.dispatch (reducer : Val → Val → Val) (s : Store) (action : Val)
    (timestamp : Nat) : Store × Except StoreError Val :=
  s.base_dispatch reducer action timestamp

/-- Truthiness of the optional `slice_key` argument of `get_state`
(`if slice_key:`): `None` and the empty string are falsy. -/
def sliceTruthy : Option String → Bool
  | some k => k ≠ ""
  | none => false

/-- Model of `beanstackStore.get_state(slice_key)`: in debug mode the
ring's cursor entry is preferred when present, falling back to the live
state; a truthy slice key selects one top-level entry via `.get`. -/
def Store.get_state (s : Store) (sliceKey : Option String) : Val :=
  let fromLive :=
    if sliceTruthy sliceKey then s.state.get (sliceKey.getD "")
    else s.state
  if s.debugMode then
    match s.timeTravel.get_current_state with
    | some st => if sliceTruthy sliceKey then st.get (sliceKey.getD "") else st
    | none => fromLive
  else fromLive

/-- Model of `beanstackStore.enable_debug`: when not already in debug
mode, switch the flag on and push the current state tagged
`{"type": "@@INIT"}` into the ring; otherwise do nothing. -/
def Store.enable_debug (s : Store) (timestamp : Nat) : Store :=
  if s.debugMode then s
  else
    let s1 := { s with debugMode := true }
    { s1 with
        timeTravel :=
          s1.timeTravel.push_state s1.state (.vmap [("type", .vstr "@@INIT")]) timestamp }

/-- Model of `beanstackStore.disable_debug`: when in debug mode, switch
the flag off, read the entry at index `len(history) - 1`, and only when
that retrieved state is truthy commit it into the live state and
persist. -/
def Store.disable_debug (s : Store) : Store :=
  if s.debugMode then
    let s1 := { s with debugMode := false }
    match s1.timeTravel.get_state ((s1.timeTravel.history.length : Int) - 1) with
    | some latest =>
      if latest.truthy then ({ s1 with state := latest }).persist_state else s1
    | none => s1
  else s

/-- Model of `beanstackStore.time_travel_to(index)`: an error outside
debug mode; otherwise move the cursor and notify subscribers only when
the ring lookup succeeds, and do nothing at all when it reports
absent. -/
def Store.time_travel_to (s : Store) (index : Int) : Except StoreError Store :=
  if s.debugMode = false then .error .notDebugMode
  else
    match s.timeTravel.get_state index with
    | some _ =>
      .ok { s with
              timeTravel := { s.timeTravel with currentIndex := index },
              subscribersNotified := s.subscribersNotified + 1 }
    | none => .ok s

/-- Fold a list of `(state, action, timestamp)` triples into the ring
via `push_state`, modelling a sequence of pushes. -/
def pushAll (tt : TimeTravel) (entries : List (Val × Val × Nat)) : TimeTravel :=
  entries.foldl (fun acc e => acc.push_state e.1 e.2.1 e.2.2) tt

/-- Entry built by one push, without the surrounding ring logic. -/
def mkEntry (e : Val × Val × Nat) : HistEntry :=
  ⟨e.1, e.2.1, e.2.2⟩

/-- Dispatch function type for the middleware model: an action goes in,
a trace of probe events and a result come out. -/
abbrev TDispatch := Val → List String × Val

/-- Middleware shape after instantiation against the store API, from
`middleware.py`: a transformer of dispatch functions. -/
abbrev TMiddleware := TDispatch → TDispatch

/-- Chain composition step of `apply_middleware` (middleware.py lines
59 and 60): instantiate the middlewares in reversed registration order
and left-fold `curr(acc)` over them starting from the base dispatch. -/
def apply_middleware (middlewares : List TMiddleware) (base : TDispatch) : TDispatch :=
  middlewares.reverse.foldl (fun acc curr => curr acc) base

/-- Logging-probe middleware: records entry into its wrapper, forwards
to the next link unchanged, then records exit. -/
def probe_middleware (tag : String) : TMiddleware :=
  fun next action =>
    let r := next action
    ((tag ++ ".enter") :: r.1 ++ [tag ++ ".exit"], r.2)

/-- Base dispatch probe: records the event `"base"` and applies the
underlying state transition. -/
def probe_base (baseF : Val → Val) : TDispatch :=
  fun action => (["base"], baseF action)

/-- Reducer used in the concrete scenarios: an `INC` action sets the
counter key `n` to one, anything else leaves the state unchanged. -/
def incReducer : Val → Val → Val := fun s a =>
  if a.get "type" = .vstr "INC" then .vmap [("n", .vint 1)] else s

/-- Store with `{"n": 0}` as initial state and no storage backend. -/
def debugStore0 : Store :=
  create_store (some (.vmap [("n", .vint 0)])) none "beanstack_state" none

/-- The same store after `enable_debug()` (ring holds the `@@INIT`
entry). -/
def debugStore1 : Store := debugStore0.enable_debug 0

/-- The same store after dispatching `{"type": "INC"}` (ring holds two
entries, live state `{"n": 1}`). -/
def debugStore2 : Store := (debugStore1.dispatch incReducer (.vmap [("type", .vstr "INC")]) 1).1

/-- The same store after `time_travel_to(0)` (cursor moved back to the
`@@INIT` entry). -/
def debugStore3 : Store :=
  match debugStore2.time_travel_to 0 with
  | .ok s => s
  | .error _ => debugStore2

/-- The same store after `disable_debug()` (debug off again; the ring
still holds its two entries). -/
def debugStore4 : Store := debugStore2.disable_debug

/-- Fake storage backend pre-loaded with `{"count": 5}` under the
default storage key. -/
def c7_storage : Storage :=
  { data := [("beanstack_state", .vmap [("count", .vint 5)])], saveCount := 0 }

/-- Store built over the fake backend with initial state
`{"count": 0, "flag": False}` and persist keys `["count"]`. -/
def c7_store : Store :=
  create_store (some (.vmap [("count", .vint 0), ("flag", .vbool false)]))
    (some c7_storage) "beanstack_state" (some ["count"])

/-- Store in debug mode whose ring's last entry holds the empty
mapping as its state, reached by dispatching an action whose reducer
returns `{}`. -/
def emptyStateStore : Store :=
  ((debugStore0.enable_debug 0).dispatch (fun _ _ => .vmap [])
    (.vmap [("type", .vstr "CLEAR")]) 1).1

theorem persist_state_state (s : Store) : (s.persist_state).state = s.state := by
  unfold Store.persist_state
  cases hs : s.storage <;> simp

theorem persist_state_debugMode (s : Store) :
    (s.persist_state).debugMode = s.debugMode := by
  unfold Store.persist_state
  cases hs : s.storage <;> simp

theorem persist_state_timeTravel (s : Store) :
    (s.persist_state).timeTravel = s.timeTravel := by
  unfold Store.persist_state
  cases hs : s.storage <;> simp

theorem persist_state_subscribersNotified (s : Store) :
    (s.persist_state).subscribersNotified = s.subscribersNotified := by
  unfold Store.persist_state
  cases hs : s.storage <;> simp

theorem get_state_normal (s : Store) (h : s.debugMode = false) :
    s.get_state none = s.state := by
  unfold Store.get_state
  simp [h, sliceTruthy]

/-- C1: in normal mode (debug off), dispatching any valid action (a
mapping with a `"type"` key) succeeds returning the action, and
`get_state()` with no slice key afterwards equals
`reducer(previous_state, action)` applied to the state immediately
before the dispatch. -/
theorem dispatch_normal_mode_runs_reducer (reducer : Val → Val → Val) (s : Store)
    (a : Val) (ts : Nat) (hdbg : s.debugMode = false) (hval : isValidAction a = true) :
    (s.dispatch reducer a ts).2 = Except.ok a ∧
    ((s.dispatch reducer a ts).1).get_state none = reducer s.state a := by
  unfold Store.dispatch Store.base_dispatch
  rw [hval, if_neg (by decide)]
  refine ⟨rfl, ?_⟩
  rw [get_state_normal]
  · simp [hdbg, persist_state_state]
  · simp [hdbg, persist_state_debugMode]

theorem dispatch_normal_mode_runs_reducer_witness :
    debugStore0.debugMode = false ∧
    isValidAction (.vmap [("type", .vstr "INC")]) = true ∧
    ((debugStore0.dispatch incReducer (.vmap [("type", .vstr "INC")]) 0).1).get_state none
      = incReducer debugStore0.state (.vmap [("type", .vstr "INC")]) :=
  ⟨by decide, by decide,
    (dispatch_normal_mode_runs_reducer incReducer debugStore0
      (.vmap [("type", .vstr "INC")]) 0 (by decide) (by decide)).2⟩

/-- C5: dispatching a value that is not a mapping, or a mapping without
a `"type"` key, raises the malformed-action error synchronously and
returns the store completely unchanged: same state, same notification
count, same storage (so no save was attempted). -/
theorem dispatch_malformed_action_rejected (reducer : Val → Val → Val) (s : Store)
    (a : Val) (ts : Nat) (hval : isValidAction a = false) :
    s.dispatch reducer a ts = (s, Except.error StoreError.malformedAction) := by
  unfold Store.dispatch Store.base_dispatch
  simp [hval]

theorem dispatch_malformed_action_rejected_witness :
    isValidAction (.vint 3) = false ∧
    isValidAction (.vmap [("payload", .vint 1)]) = false ∧
    debugStore0.dispatch incReducer (.vint 3) 0
      = (debugStore0, Except.error StoreError.malformedAction) ∧
    debugStore0.dispatch incReducer (.vmap [("payload", .vint 1)]) 0
      = (debugStore0, Except.error StoreError.malformedAction) :=
  ⟨by decide, by decide,
    dispatch_malformed_action_rejected incReducer debugStore0 (.vint 3) 0 (by decide),
    dispatch_malformed_action_rejected incReducer debugStore0
      (.vmap [("payload", .vint 1)]) 0 (by decide)⟩

/-- C6: dispatching through the chain composed by `apply_middleware`
from `[M1, M2]` enters M1's wrapper first, then M2's wrapper, then the
base dispatch, and returns back through M2's wrapper and then M1's
wrapper, with the base result propagated unchanged. -/
theorem apply_middleware_order (baseF : Val → Val) (a : Val) :
    apply_middleware [probe_middleware "M1", probe_middleware "M2"] (probe_base baseF) a
      = (["M1.enter", "M2.enter", "base", "M2.exit", "M1.exit"], baseF a) := rfl

/-- C9: a second `enable_debug()` while debug mode is already active is
a no-op (no history push, no state change), so two consecutive enables
are equivalent to one. -/
theorem enable_debug_idempotent (s : Store) (t1 t2 : Nat) :
    (s.debugMode = true → s.enable_debug t1 = s) ∧
    (s.enable_debug t1).enable_debug t2 = s.enable_debug t1 := by
  constructor
  · intro h
    unfold Store.enable_debug
    simp [h]
  · by_cases h : s.debugMode <;> unfold Store.enable_debug <;> simp [h]

theorem enable_debug_idempotent_witness :
    debugStore1.debugMode = true ∧
    debugStore1.enable_debug 7 = debugStore1 ∧
    (debugStore0.enable_debug 0).enable_debug 7 = debugStore0.enable_debug 0 :=
  ⟨by decide, (enable_debug_idempotent debugStore1 7 7).1 (by decide),
    (enable_debug_idempotent debugStore0 0 7).2⟩

/-- C10: in debug mode, `time_travel_to(index)` with any index outside
`[0, len(history))` (negative indices included) raises no error and
returns the store unchanged — no cursor move and no subscriber
notification — because the ring lookup reports absent instead of
indexing from the end. -/
theorem time_travel_to_out_of_range (s : Store) (i : Int)
    (hdbg : s.debugMode = true)
    (hout : i < 0 ∨ (s.timeTravel.history.length : Int) ≤ i) :
    s.timeTravel.get_state i = none ∧ s.time_travel_to i = Except.ok s := by
  have hnone : s.timeTravel.get_state i = none := by
    unfold TimeTravel.get_state
    rw [if_neg]
    rintro ⟨h1, h2⟩
    omega
  refine ⟨hnone, ?_⟩
  unfold Store.time_travel_to
  rw [if_neg (by simp [hdbg])]
  rw [hnone]

theorem get_state_last (tt : TimeTravel) (e : HistEntry)
    (h : tt.history.getLast? = some e) :
    tt.get_state ((tt.history.length : Int) - 1) = some e.state := by
  have hne : tt.history ≠ [] := by
    intro hn
    rw [hn] at h
    simp at h
  have hlen : 1 ≤ tt.history.length := by
    cases hh : tt.history with
    | nil => exact absurd hh hne
    | cons x l => simp [hh]
  unfold TimeTravel.get_state
  rw [if_pos (by constructor <;> omega)]
  have htn : ((tt.history.length : Int) - 1).toNat = tt.history.length - 1 := by omega
  rw [htn, List.get?_eq_getElem?, ← List.getLast?_eq_getElem?, h]
  rfl

/-- C8: while in debug mode, when the state stored in the last history
entry is the empty mapping (or the ring is empty altogether),
`disable_debug()` only turns the flag off: the live state, the ring,
the notification count and the storage are all untouched, because the
commit step is skipped for a falsy retrieved state. -/
theorem disable_debug_skips_falsy_commit (s : Store) (hdbg : s.debugMode = true) :
    (∀ e : HistEntry, s.timeTravel.history.getLast? = some e → e.state = Val.vmap [] →
      s.disable_debug = { s with debugMode := false }) ∧
    (s.timeTravel.history = [] →
      s.disable_debug = { s with debugMode := false }) := by
  constructor
  · intro e hl hs
    unfold Store.disable_debug
    rw [if_pos hdbg]
    show (match ({ s with debugMode := false } : Store).timeTravel.get_state _ with
          | some latest =>
            if latest.truthy then
              ({ ({ s with debugMode := false } : Store) with state := latest }).persist_state
            else { s with debugMode := false }
          | none => ({ s with debugMode := false } : Store)) = _
    have hg : ({ s with debugMode := false } : Store).timeTravel.get_state
        ((({ s with debugMode := false } : Store).timeTravel.history.length : Int) - 1)
          = some e.state := get_state_last s.timeTravel e hl
    rw [hg, hs]
    simp [Val.truthy]
  · intro hem
    have hn : s.timeTravel.get_state ((s.timeTravel.history.length : Int) - 1) = none := by
      unfold TimeTravel.get_state
      rw [if_neg]
      rintro ⟨h1, h2⟩
      rw [hem] at h1
      simp at h1
    unfold Store.disable_debug
    rw [if_pos hdbg]
    show (match ({ s with debugMode := false } : Store).timeTravel.get_state _ with
          | some latest =>
            if latest.truthy then
              ({ ({ s with debugMode := false } : Store) with state := latest }).persist_state
            else { s with debugMode := false }
          | none => ({ s with debugMode := false } : Store)) = _
    rw [hn]

theorem disable_debug_skips_falsy_commit_witness :
    emptyStateStore.debugMode = true ∧
    (emptyStateStore.timeTravel.history.getLast?).map (·.state) = some (Val.vmap []) ∧
    emptyStateStore.disable_debug = { emptyStateStore with debugMode := false } := by
  refine ⟨by decide, by decide, ?_⟩
  exact (disable_debug_skips_falsy_commit emptyStateStore (by decide)).1
    ⟨.vmap [], .vmap [("type", .vstr "CLEAR")], 1⟩ (by decide) (by decide)

/-- C2 counterexample: in the concrete scenario enable-debug, dispatch
`INC`, travel back to index 0, the cursor points at the `@@INIT` entry
holding `{"n": 0}`, yet `disable_debug()` leaves `get_state()` at
`{"n": 1}` — the last entry, not the cursor entry — refuting the claim
that the entry under the cursor is committed. -/
theorem disable_debug_cursor_counterexample :
    debugStore3.debugMode = true ∧
    debugStore3.timeTravel.currentIndex = 0 ∧
    debugStore3.timeTravel.get_state 0 = some (.vmap [("n", .vint 0)]) ∧
    debugStore3.disable_debug.get_state none = .vmap [("n", .vint 1)] ∧
    Val.vmap [("n", .vint 1)] ≠ Val.vmap [("n", .vint 0)] := by decide

/-- C2 amended: for every store in debug mode, `disable_debug()`
commits the state of the LAST history entry (index
`len(history) - 1`), regardless of where the cursor points, provided
that retrieved state is truthy; afterwards debug mode is off and
`get_state()` returns that last entry's state. -/
theorem disable_debug_commits_last_entry (s : Store) (v : Val)
    (hdbg : s.debugMode = true)
    (hlast : s.timeTravel.get_state ((s.timeTravel.history.length : Int) - 1) = some v)
    (htruthy : v.truthy = true) :
    (s.disable_debug).debugMode = false ∧ (s.disable_debug).state = v ∧
    (s.disable_debug).get_state none = v := by
  have key : s.disable_debug
      = ({ s with debugMode := false, state := v } : Store).persist_state := by
    unfold Store.disable_debug
    rw [if_pos hdbg]
    show (match ({ s with debugMode := false } : Store).timeTravel.get_state _ with
          | some latest =>
            if latest.truthy then
              ({ ({ s with debugMode := false } : Store) with state := latest }).persist_state
            else { s with debugMode := false }
          | none => ({ s with debugMode := false } : Store)) = _
    have hg : ({ s with debugMode := false } : Store).timeTravel.get_state
        ((({ s with debugMode := false } : Store).timeTravel.history.length : Int) - 1)
          = some v := hlast
    rw [hg]
    simp [htruthy]
  have hdm : (s.disable_debug).debugMode = false := by
    rw [key, persist_state_debugMode]
  refine ⟨hdm, ?_, ?_⟩
  · rw [key, persist_state_state]
  · rw [get_state_normal _ hdm, key, persist_state_state]

theorem disable_debug_commits_last_entry_witness :
    debugStore3.debugMode = true ∧
    debugStore3.timeTravel.get_state ((debugStore3.timeTravel.history.length : Int) - 1)
      = some (.vmap [("n", .vint 1)]) ∧
    debugStore3.disable_debug.get_state none = .vmap [("n", .vint 1)] := by
  refine ⟨by decide, by decide, ?_⟩
  exact (disable_debug_commits_last_entry debugStore3 (.vmap [("n", .vint 1)])
    (by decide) (by decide) (by decide)).2.2

/-- C3 counterexample: after enable-debug, one dispatch and
disable-debug, the ring still holds two entries; a second
`enable_debug()` pushes another `@@INIT` entry even though the ring is
not empty, growing it to three — refuting the claim that `@@INIT` is
seeded only into an empty ring. -/
theorem enable_debug_nonempty_counterexample :
    debugStore4.debugMode = false ∧
    debugStore4.timeTravel.history.length = 2 ∧
    (debugStore4.enable_debug 2).timeTravel.history.length = 3 ∧
    ((debugStore4.enable_debug 2).timeTravel.history.getLast?).map (·.action)
      = some (.vmap [("type", .vstr "@@INIT")]) := by decide

theorem push_state_at_tail (tt : TimeTravel) (st a : Val) (ts : Nat)
    (hc : tt.currentIndex = (tt.history.length : Int) - 1) :
    (tt.push_state st a ts).history
      = (tt.history ++ [HistEntry.mk st a ts]).drop
          (tt.history.length + 1 - tt.maxHistory) ∧
    (tt.push_state st a ts).maxHistory = tt.maxHistory ∧
    (tt.push_state st a ts).currentIndex
      = ((tt.push_state st a ts).history.length : Int) - 1 ∧
    (tt.push_state st a ts).history.length
      = min (tt.history.length + 1) tt.maxHistory := by
  have hnotrunc : ¬ (tt.currentIndex < (tt.history.length : Int) - 1) := by
    rw [hc]
    exact lt_irrefl _
  have key : (tt.push_state st a ts).history
      = (tt.history ++ [HistEntry.mk st a ts]).drop
          (tt.history.length + 1 - tt.maxHistory) := by
    simp only [TimeTravel.push_state, if_neg hnotrunc]
    by_cases hcap : tt.maxHistory < (tt.history ++ [HistEntry.mk st a ts]).length
    · rw [if_pos hcap]
      simp [List.length_append]
    · rw [if_neg hcap]
      simp only [List.length_append, List.length_cons, List.length_nil] at hcap
      have h0 : tt.history.length + 1 - tt.maxHistory = 0 := by omega
      rw [h0, List.drop_zero]
  have hmax : (tt.push_state st a ts).maxHistory = tt.maxHistory := by
    simp only [TimeTravel.push_state]
  have hcur : (tt.push_state st a ts).currentIndex
      = ((tt.push_state st a ts).history.length : Int) - 1 := by
    simp only [TimeTravel.push_state]
  have hlen : (tt.push_state st a ts).history.length
      = min (tt.history.length + 1) tt.maxHistory := by
    rw [key]
    simp only [List.length_drop, List.length_append, List.length_cons, List.length_nil]
    omega
  exact ⟨key, hmax, hcur, hlen⟩

/-- C3 amended: `enable_debug()` seeds the ring with a synthetic
`@@INIT` entry holding the current snapshot whenever debug mode was
off — whether or not the ring already contains entries (here stated
with the cursor at the tail and spare capacity, so the push is a plain
append); only when debug mode is already on does it add nothing. -/
theorem enable_debug_always_seeds_init (s : Store) (ts : Nat)
    (hdbg : s.debugMode = false)
    (htail : s.timeTravel.currentIndex = (s.timeTravel.history.length : Int) - 1)
    (hcap : s.timeTravel.history.length < s.timeTravel.maxHistory) :
    (s.enable_debug ts).debugMode = true ∧
    (s.enable_debug ts).timeTravel.history
      = s.timeTravel.history
          ++ [HistEntry.mk s.state (.vmap [("type", .vstr "@@INIT")]) ts] := by
  unfold Store.enable_debug
  rw [if_neg (by simp [hdbg])]
  refine ⟨rfl, ?_⟩
  show (s.timeTravel.push_state s.state (.vmap [("type", .vstr "@@INIT")]) ts).history = _
  have hp := push_state_at_tail s.timeTravel s.state (.vmap [("type", .vstr "@@INIT")]) ts htail
  rw [hp.1]
  have h0 : s.timeTravel.history.length + 1 - s.timeTravel.maxHistory = 0 := by omega
  rw [h0, List.drop_zero]

theorem enable_debug_always_seeds_init_witness :
    debugStore4.debugMode = false ∧
    debugStore4.timeTravel.history.length = 2 ∧
    (debugStore4.enable_debug 2).timeTravel.history
      = debugStore4.timeTravel.history
          ++ [HistEntry.mk debugStore4.state (.vmap [("type", .vstr "@@INIT")]) 2] := by
  refine ⟨by decide, by decide, ?_⟩
  exact (enable_debug_always_seeds_init debugStore4 2 (by decide) (by decide) (by decide)).2

theorem drop_append_drop {α : Type} (l m : List α) (d e : Nat) (hd : d ≤ l.length) :
    (l.drop d ++ m).drop e = (l ++ m).drop (d + e) := by
  rw [← List.drop_drop, List.drop_append_of_le_length hd]

theorem pushAll_at_tail (entries : List (Val × Val × Nat)) :
    ∀ tt : TimeTravel,
      tt.currentIndex = (tt.history.length : Int) - 1 →
      tt.history.length ≤ tt.maxHistory →
      (pushAll tt entries).history
          = (tt.history ++ entries.map mkEntry).drop
              (tt.history.length + entries.length - tt.maxHistory) ∧
      (pushAll tt entries).maxHistory = tt.maxHistory ∧
      (pushAll tt entries).currentIndex
          = ((pushAll tt entries).history.length : Int) - 1 ∧
      (pushAll tt entries).history.length ≤ tt.maxHistory := by
  induction entries with
  | nil =>
    intro tt hc hl
    have h0 : tt.history.length - tt.maxHistory = 0 := by omega
    exact ⟨by simp [pushAll, h0], rfl, hc, hl⟩
  | cons e rest ih =>
    intro tt hc hl
    obtain ⟨p1, p2, p3, p4⟩ := push_state_at_tail tt e.1 e.2.1 e.2.2 hc
    have hlen1 : (tt.push_state e.1 e.2.1 e.2.2).history.length ≤
        (tt.push_state e.1 e.2.1 e.2.2).maxHistory := by
      rw [p2, p4]
      omega
    obtain ⟨i1, i2, i3, i4⟩ := ih (tt.push_state e.1 e.2.1 e.2.2) p3 hlen1
    have hstep : pushAll tt (e :: rest) = pushAll (tt.push_state e.1 e.2.1 e.2.2) rest := rfl
    refine ⟨?_, ?_, ?_, ?_⟩
    · rw [hstep, i1, p1, p2]
      rw [drop_append_drop _ _ _ _ (by
        simp only [List.length_append, List.length_cons, List.length_nil]
        omega)]
      simp only [List.length_drop, List.length_append, List.length_cons, List.length_nil,
        List.map_cons, List.append_assoc, List.singleton_append, mkEntry]
      congr 1
      omega
    · rw [hstep, i2, p2]
    · rw [hstep]
      exact i3
    · rw [hstep]
      rw [p2] at i4
      exact i4

/-- C4: the History Ring (a) starting empty with capacity `N`, after
pushing `N + k` entries (cursor always at the tail, as every push
leaves it there) retains exactly the last `N` entries in their push
order, oldest evicted first, with the cursor at the tail; and (b)
pushing while the cursor points at a valid index `i` strictly before
the tail first discards every entry after index `i`, then appends the
new entry, leaving the cursor at the new tail `i + 1`. -/
theorem history_ring_capacity_and_truncation :
    (∀ (N k : Nat) (entries : List (Val × Val × Nat)),
      1 ≤ k → entries.length = N + k →
      (pushAll (TimeTravel.init N) entries).history = (entries.map mkEntry).drop k ∧
      (pushAll (TimeTravel.init N) entries).history.length = N ∧
      (pushAll (TimeTravel.init N) entries).currentIndex
        = ((pushAll (TimeTravel.init N) entries).history.length : Int) - 1) ∧
    (∀ (tt : TimeTravel) (i : Int) (st a : Val) (ts : Nat),
      tt.history.length ≤ tt.maxHistory →
      tt.currentIndex = i → 0 ≤ i → i < (tt.history.length : Int) - 1 →
      (tt.push_state st a ts).history
        = tt.history.take (i + 1).toNat ++ [HistEntry.mk st a ts] ∧
      (tt.push_state st a ts).currentIndex = i + 1 ∧
      (tt.push_state st a ts).currentIndex
        = ((tt.push_state st a ts).history.length : Int) - 1) := by
  constructor
  · intro N k entries hk hlen
    obtain ⟨i1, i2, i3, i4⟩ := pushAll_at_tail entries (TimeTravel.init N)
      (by simp [TimeTravel.init]) (by simp [TimeTravel.init])
    have hdrop : (TimeTravel.init N).history.length + entries.length
        - (TimeTravel.init N).maxHistory = k := by
      simp [TimeTravel.init]
      omega
    rw [hdrop] at i1
    have hhist : (pushAll (TimeTravel.init N) entries).history
        = (entries.map mkEntry).drop k := by
      rw [i1]
      simp [TimeTravel.init]
    refine ⟨hhist, ?_, i3⟩
    rw [hhist]
    simp only [List.length_drop, List.length_map]
    omega
  · intro tt i st a ts hcap hcur hi0 hitail
    have htrunc : tt.currentIndex < (tt.history.length : Int) - 1 := by
      rw [hcur]
      exact hitail
    have hlentake : (tt.history.take (tt.currentIndex + 1).toNat).length
        = (i + 1).toNat := by
      rw [hcur]
      simp only [List.length_take]
      omega
    have happlen : (tt.history.take (tt.currentIndex + 1).toNat
        ++ [HistEntry.mk st a ts]).length = (i + 1).toNat + 1 := by
      simp only [List.length_append, List.length_cons, List.length_nil, hlentake]
    have hnocap : ¬ (tt.maxHistory < (tt.history.take (tt.currentIndex + 1).toNat
        ++ [HistEntry.mk st a ts]).length) := by
      rw [happlen]
      omega
    have key : (tt.push_state st a ts).history
        = tt.history.take (i + 1).toNat ++ [HistEntry.mk st a ts] := by
      simp only [TimeTravel.push_state, if_pos htrunc]
      rw [if_neg hnocap, hcur]
    have hcurtail : (tt.push_state st a ts).currentIndex
        = ((tt.push_state st a ts).history.length : Int) - 1 := by
      simp only [TimeTravel.push_state]
    have happlen2 : (tt.history.take (i + 1).toNat ++ [HistEntry.mk st a ts]).length
        = (i + 1).toNat + 1 := by
      simp only [List.length_append, List.length_cons, List.length_nil, List.length_take]
      omega
    refine ⟨key, ?_, hcurtail⟩
    rw [hcurtail, key, happlen2]
    omega

theorem history_ring_capacity_and_truncation_witness :
    (pushAll (TimeTravel.init 1)
        [(.vint 1, .vmap [("type", .vstr "A")], 0),
         (.vint 2, .vmap [("type", .vstr "B")], 1)]).history
      = [HistEntry.mk (.vint 2) (.vmap [("type", .vstr "B")]) 1] ∧
    ((TimeTravel.mk 2 [HistEntry.mk (.vint 0) .vnone 0, HistEntry.mk (.vint 1) .vnone 1]
        0).push_state (.vint 9) .vnone 5).history
      = [HistEntry.mk (.vint 0) .vnone 0, HistEntry.mk (.vint 9) .vnone 5] ∧
    ((TimeTravel.mk 2 [HistEntry.mk (.vint 0) .vnone 0, HistEntry.mk (.vint 1) .vnone 1]
        0).push_state (.vint 9) .vnone 5).currentIndex = 1 := by
  refine ⟨?_, ?_, ?_⟩
  · exact ((history_ring_capacity_and_truncation.1 1 1
      [(.vint 1, .vmap [("type", .vstr "A")], 0), (.vint 2, .vmap [("type", .vstr "B")], 1)]
      (by decide) (by decide)).1).trans (by decide)
  · exact ((history_ring_capacity_and_truncation.2
      (TimeTravel.mk 2 [HistEntry.mk (.vint 0) .vnone 0, HistEntry.mk (.vint 1) .vnone 1] 0)
      0 (.vint 9) .vnone 5 (by decide) (by decide) (by decide) (by decide)).1).trans
      (by decide)
  · exact (history_ring_capacity_and_truncation.2
      (TimeTravel.mk 2 [HistEntry.mk (.vint 0) .vnone 0, HistEntry.mk (.vint 1) .vnone 1] 0)
      0 (.vint 9) .vnone 5 (by decide) (by decide) (by decide) (by decide)).2.1

theorem mlookup_mapSet_self (m : List (String × Val)) (k : String) (v : Val) :
    mlookup (mapSet m k v) k = some v := by
  induction m with
  | nil => simp [mapSet, mlookup]
  | cons p rest ih =>
    obtain ⟨k2, v2⟩ := p
    by_cases h : k2 == k
    · simp [mapSet, mlookup, h]
    · simp only [Bool.not_eq_true] at h
      simp [mapSet, mlookup, h, ih]

theorem mlookup_mapSet_ne (m : List (String × Val)) (k2 k : String) (v : Val)
    (h : k2 ≠ k) : mlookup (mapSet m k2 v) k = mlookup m k := by
  induction m with
  | nil =>
    simp [mapSet, mlookup, beq_eq_false_iff_ne.2 h]
  | cons p rest ih =>
    obtain ⟨k3, v3⟩ := p
    by_cases h3 : k3 == k2
    · simp only [mapSet, h3, if_true]
      have hne : (k3 == k) = false := by
        have : k3 = k2 := by simpa using h3
        exact beq_eq_false_iff_ne.2 (this ▸ h)
      simp [mlookup, hne]
    · simp only [Bool.not_eq_true] at h3
      simp only [mapSet, h3, Bool.false_eq_true, if_false]
      simp [mlookup, ih]

theorem mlookup_append_absent (m : List (String × Val)) (k : String) (v : Val)
    (h : mlookup m k = none) : mlookup (m ++ [(k, v)]) k = some v := by
  induction m with
  | nil => simp [mlookup]
  | cons p rest ih =>
    obtain ⟨k2, v2⟩ := p
    by_cases h2 : k2 == k
    · simp [mlookup, h2] at h
    · simp only [Bool.not_eq_true] at h2
      simp only [mlookup, h2, Bool.false_eq_true, if_false] at h
      simp [mlookup, h2, ih h]

theorem mlookup_append_ne (m : List (String × Val)) (k2 k : String) (v : Val)
    (h : k2 ≠ k) : mlookup (m ++ [(k2, v)]) k = mlookup m k := by
  induction m with
  | nil => simp [mlookup, beq_eq_false_iff_ne.2 h]
  | cons p rest ih =>
    obtain ⟨k3, v3⟩ := p
    by_cases h3 : k3 == k
    · simp [mlookup, h3]
    · simp only [Bool.not_eq_true] at h3
      simp [mlookup, h3, ih]

theorem combineGo_preserves (stored : List (String × Val)) :
    ∀ (merged : List (String × Val)) (k : String), k ∉ stored.map Prod.fst →
      mlookup (combineFrom.go stored merged) k = mlookup merged k := by
  induction stored with
  | nil =>
    intro merged k h
    simp [combineFrom.go]
  | cons p rest ih =>
    obtain ⟨key, sv⟩ := p
    intro merged k h
    simp only [List.map_cons, List.mem_cons, not_or] at h
    obtain ⟨hk, hrest⟩ := h
    simp only [combineFrom.go]
    rw [ih _ _ hrest]
    cases hm : mlookup merged key with
    | none =>
      simp only [hm]
      exact mlookup_append_ne _ _ _ _ (Ne.symm hk)
    | some iv =>
      simp only [hm]
      split
      · exact mlookup_mapSet_ne _ _ _ _ (Ne.symm hk)
      · split
        · rfl
        · exact mlookup_mapSet_ne _ _ _ _ (Ne.symm hk)

theorem combineGo_stored_wins (stored : List (String × Val)) :
    ∀ (merged : List (String × Val)) (k : String) (iv sv : Val),
      mlookup merged k = some iv → mlookup stored k = some sv →
      (stored.map Prod.fst).Nodup →
      (iv.isMap = false ∨ sv.isMap = false) →
      mlookup (combineFrom.go stored merged) k = some sv := by
  induction stored with
  | nil =>
    intro merged k iv sv hm hs hnd hnm
    simp [mlookup] at hs
  | cons p rest ih =>
    obtain ⟨key, sv2⟩ := p
    intro merged k iv sv hm hs hnd hnm
    simp only [List.map_cons, List.nodup_cons] at hnd
    obtain ⟨hknotin, hndrest⟩ := hnd
    by_cases hk : key = k
    · subst hk
      have hsv : sv2 = sv := by
        simpa [mlookup] using hs
      subst hsv
      simp only [combineFrom.go]
      rw [combineGo_preserves rest _ _ hknotin]
      simp only [hm]
      split
      · rename_i a b
        simp [Val.isMap] at hnm
      · split
        · rename_i hbeq
          rw [← (Val.beq_iff iv sv2).1 hbeq]
          exact hm
        · exact mlookup_mapSet_self _ _ _
    · have hsrest : mlookup rest k = some sv := by
        have hne : (key == k) = false := beq_eq_false_iff_ne.2 hk
        simpa [mlookup, hne] using hs
      simp only [combineFrom.go]
      apply ih _ k iv sv ?_ hsrest hndrest hnm
      cases hm2 : mlookup merged key with
      | none =>
        simp only [hm2]
        rw [mlookup_append_ne _ _ _ _ hk]
        exact hm
      | some iv2 =>
        simp only [hm2]
        split
        · rw [mlookup_mapSet_ne _ _ _ _ hk]
          exact hm
        · split
          · exact hm
          · rw [mlookup_mapSet_ne _ _ _ _ hk]
            exact hm

/-- C7: constructing a store over a backend whose load returns
`{"count": 5}`, with initial state `{"count": 0, "flag": False}` and
persist keys `["count"]`, yields initial `get_state()` equal to
`{"count": 5, "flag": False}`; and in general, for any key present in
both the loaded blob and the initial state whose two values are not
both mappings, the merged state carries the loaded value. -/
theorem persistence_rehydration :
    c7_store.get_state none = Val.vmap [("count", .vint 5), ("flag", .vbool false)] ∧
    (∀ (init stored : List (String × Val)) (k : String) (iv sv : Val),
      mlookup init k = some iv → mlookup stored k = some sv →
      (stored.map Prod.fst).Nodup →
      (iv.isMap = false ∨ sv.isMap = false) →
      (combine_state (.vmap init) (.vmap stored)).lookupKey k = some sv) := by
  constructor
  · decide
  · intro init stored k iv sv hm hs hnd hnm
    show mlookup (combineFrom.go stored init) k = some sv
    exact combineGo_stored_wins stored init k iv sv hm hs hnd hnm

theorem persistence_rehydration_witness :
    (combine_state (Val.vmap [("count", Val.vint 0)])
        (Val.vmap [("count", Val.vint 5)])).lookupKey "count" = some (Val.vint 5) :=
  persistence_rehydration.2 [("count", Val.vint 0)] [("count", Val.vint 5)] "count"
    (Val.vint 0) (Val.vint 5) (by decide) (by decide) (by decide) (by decide)

theorem time_travel_to_out_of_range_witness :
    debugStore2.debugMode = true ∧
    debugStore2.timeTravel.history.length = 2 ∧
    debugStore2.timeTravel.get_state (-1) = none ∧
    debugStore2.time_travel_to (-1) = Except.ok debugStore2 ∧
    debugStore2.timeTravel.get_state 2 = none ∧
    debugStore2.time_travel_to 2 = Except.ok debugStore2 := by
  refine ⟨by decide, by decide, ?_, ?_, ?_, ?_⟩
  · exact (time_travel_to_out_of_range debugStore2 (-1) (by decide) (by left; decide)).1
  · exact (time_travel_to_out_of_range debugStore2 (-1) (by decide) (by left; decide)).2
  · exact (time_travel_to_out_of_range debugStore2 2 (by decide) (by right; decide)).1
  · exact (time_travel_to_out_of_range debugStore2 2 (by decide) (by right; decide)).2

end Beanstack
